import Mathlib

/-!
Shallow embedding of the prompt-management module (src/vorple/prompt.ts) of
the Vorple repository, together with theorems checking the natural-language
specification against it.

The module keeps three in-memory lists: registered input filters, a queue of
pending parser commands, and a queue of pending keypresses.  The async
routine applyInputFilters runs a line of input through the registered
filters; runCommandQueue and runKeyQueue react to the engine lifecycle
events expectCommand and expectKeypress.

External calls made by the module (block and unblock from the layout module,
the error reporting call from the debug module, submit and keypress.send)
are recorded as events in a trace, so that temporal statements about the
routine can be expressed as statements about the trace.
-/

namespace Vorple.Prompt

/-- Values a JavaScript input filter can return, as far as the prompt module
inspects them: undefined, null, booleans, strings, numbers (standing for any
further primitive type), non-promise objects (recording whether they carry a
then property), and promises (thenables with a callable then, carrying the
value they resolve to). -/
inductive JSVal where
  | undef : JSVal
  | null : JSVal
  | bool : Bool → JSVal
  | str : String → JSVal
  | num : Int → JSVal
  | obj : Bool → JSVal
  | promise : JSVal → JSVal
deriving DecidableEq

/-- Semantics of the statement on line 109 of prompt.ts, reading
filtered = await Promise.resolve( filtered ).  Per the ECMAScript promise
semantics, await assimilates thenables recursively: a promise can only
settle on a non-thenable value, so awaiting unwraps every nested promise
layer and leaves all other values untouched. -/
def awaitResolve : JSVal → JSVal
  | .promise v => awaitResolve v
  | v => v

/-- The JavaScript typeof operator on the embedded values. -/
def jsTypeof : JSVal → String
  | .undef => "undefined"
  | .null => "object"
  | .bool _ => "boolean"
  | .str _ => "string"
  | .num _ => "number"
  | .obj _ => "object"
  | .promise _ => "object"

/-- The meta argument handed to each input filter (interface InputFilterMeta
in prompt.ts): fields input, original, type, userAction, silent. -/
structure InputFilterMeta where
  input : String
  original : String
  type : String
  userAction : Bool
  silent : Bool
deriving DecidableEq

/-- An input filter: a function of the current input and the meta object.
The TypeScript signature declares a boolean result, but the implementation
accepts and inspects arbitrary values, so the embedded filter returns a
JSVal. -/
def InputFilter := String → InputFilterMeta → JSVal

/-- Observable events emitted while applyInputFilters runs: the block and
unblock calls into the layout module, the invocation of the filter at a
given index with the current input, and the messages handed to the error
reporting call of the debug module. -/
inductive Ev where
  | block : Ev
  | unblock : Ev
  | callFilter : Nat → String → Ev
  | errorLog : String → Ev
deriving DecidableEq

/-- How the async routine applyInputFilters finishes: return false (the
input is cancelled), return the final input string, or an exception thrown
by the error reporting call propagating out of the routine. -/
inductive Outcome where
  | retFalse : Outcome
  | retString : String → Outcome
  | threw : String → Outcome
deriving DecidableEq

/-- A run of applyInputFilters: the trace of emitted events and the way the
routine finished. -/
structure Run where
  trace : List Ev
  outcome : Outcome
deriving DecidableEq

/-- The error message built on line 138 of prompt.ts for a resolved filter
value that is neither a boolean nor a string. -/
def typeErrMsg (t : String) : String :=
  "Input filter returned a value of type " ++ t

/-- The error message on line 131 of prompt.ts, reported when the resolved
value is an object carrying a then property. -/
def thenMsg : String :=
  "Input filter promise resolved into another promise, which is not allowed"

/-- Modelled from the spec: the error reporting call of the debug module
(src/vorple/debug.ts is not among the sources; only prompt.ts and the
end-to-end tests of the repository are).  The debugging test in the sources pins
its behaviour: the message is printed to the console, shown on screen, and a
JavaScript error is then thrown, even when debugging is off.  We model the
call as emitting an errorLog event and aborting the calling routine with a
thrown error carrying the same message. -/
def errorCall (msg : String) : List Ev × Outcome :=
  ([Ev.errorLog msg], Outcome.threw msg)

/-- The meta object built for one filter invocation on lines 99 to 104 of
prompt.ts: the spread of the incoming meta with input set to the current
input, original to the original input, and type to the string line. -/
def callMeta (meta : InputFilterMeta) (originalInput finalInput : String) :
    InputFilterMeta :=
  ⟨finalInput, originalInput, "line", meta.userAction, meta.silent⟩

/-- What one loop iteration of applyInputFilters does with the resolved
filter value (the switch statement on lines 115 to 142 of prompt.ts):
undefined, null and true leave the input unchanged and continue; false
cancels the whole routine; in the default branch, an object with a then
property triggers the error call with thenMsg (which throws), a string
replaces the input and continues, and anything else triggers the error call
with the typeof message (which throws). -/
inductive StepAct where
  | cont : String → StepAct
  | cancel : StepAct
  | abort : String → StepAct
deriving DecidableEq

/-- The switch statement of applyInputFilters as a function of the current
input and the resolved value. -/
def stepAct (finalInput : String) : JSVal → StepAct
  | .undef => .cont finalInput
  | .null => .cont finalInput
  | .bool true => .cont finalInput
  | .bool false => .cancel
  | .str s => .cont s
  | .num _ => .abort (typeErrMsg "number")
  | .obj true => .abort thenMsg
  | .obj false => .abort (typeErrMsg "object")
  | .promise _ => .abort thenMsg

/-- The for loop of applyInputFilters (lines 98 to 143 of prompt.ts) over
the remaining filters, carrying the index of the next filter and the current
value of finalInput.  Each iteration calls the filter, awaits the result
(the try block), calls unblock (the finally block), and then dispatches on
the resolved value.  When the list is exhausted the routine calls unblock
once more (line 145) and returns finalInput. -/
def filterLoop (originalInput : String) (meta : InputFilterMeta) :
    List InputFilter → Nat → String → List Ev × Outcome
  | [], _, finalInput => ([Ev.unblock], Outcome.retString finalInput)
  | f :: rest, idx, finalInput =>
    let filtered := awaitResolve (f finalInput (callMeta meta originalInput finalInput))
    match stepAct finalInput filtered with
    | .cont s =>
      let r := filterLoop originalInput meta rest (idx + 1) s
      (Ev.callFilter idx finalInput :: Ev.unblock :: r.1, r.2)
    | .cancel =>
      ([Ev.callFilter idx finalInput, Ev.unblock], Outcome.retFalse)
    | .abort msg =>
      (Ev.callFilter idx finalInput :: Ev.unblock :: (errorCall msg).1, (errorCall msg).2)

/-- Embedding of applyInputFilters (lines 92 to 148 of prompt.ts): block is
called first, then the filter loop runs starting from index 0 with
finalInput equal to the original input. -/
def applyInputFilters (fs : List InputFilter) (originalInput : String)
    (meta : InputFilterMeta) : Run :=
  ⟨Ev.block :: (filterLoop originalInput meta fs 0 originalInput).1,
    (filterLoop originalInput meta fs 0 originalInput).2⟩

/-- A fixed caller-side meta object used for concrete runs in witnesses and
counterexamples. -/
def meta0 : InputFilterMeta :=
  ⟨"", "", "line", true, false⟩

/-- An element of the command queue (interface ParserCommand in prompt.ts):
the command string and the silent display flag. -/
structure ParserCommand where
  cmd : String
  silent : Bool
deriving DecidableEq

/-- Embedding of runCommandQueue (lines 45 to 52 of prompt.ts) as a function
of the queue contents.  The result is the queue after the call, the list of
commands passed to submit during the call, and the return value of the
function (false when a command was submitted, undefined — none — when the
queue was empty). -/
def runCommandQueue : List ParserCommand →
    List ParserCommand × List ParserCommand × Option Bool
  | [] => ([], [], none)
  | c :: rest => (rest, [c], some false)

/-- The charCodeAt( 0 ) call of runKeyQueue on a queued key.  Queued keys
are one-character strings per the queueKeypress documentation; for those the
UTF-16 code unit equals the code point of the first character.  The empty
string (which a caller never queues through the documented API) is mapped to
0. -/
def jsCharCodeAt0 (s : String) : Nat :=
  match s.data with
  | [] => 0
  | ch :: _ => ch.toNat

/-- Embedding of runKeyQueue (lines 61 to 69 of prompt.ts) as a function of
the key queue contents.  The result is the queue after the call, the list of
key codes passed to keypress.send during the call, and the return value of
the function (false when a key was sent, true when the queue was empty). -/
def runKeyQueue : List String → List String × List Nat × Bool
  | [] => ([], [], true)
  | k :: rest => (rest, [jsCharCodeAt0 k], false)

/-- Embedding of queueCommand (lines 205 to 214 of prompt.ts): push the
command with its coerced silent flag onto the queue and, when the line input
is ready, immediately run the command queue once.  The result is the queue
after the call and the commands submitted during the call. -/
def queueCommand (q : List ParserCommand) (cmd : String) (silent : Bool)
    (ready : Bool) : List ParserCommand × List ParserCommand :=
  let q1 := q ++ [⟨cmd, silent⟩]
  if ready then
    let r := runCommandQueue q1
    (r.1, r.2.1)
  else
    (q1, [])

/-- Embedding of queueKeypress (lines 224 to 230 of prompt.ts): push the key
onto the queue and, when the engine mode is getkey, immediately run the key
queue once.  The result is the queue after the call and the key codes sent
during the call. -/
def queueKeypress (q : List String) (key : String) (getkeyMode : Bool) :
    List String × List Nat :=
  let q1 := q ++ [key]
  if getkeyMode then
    let r := runKeyQueue q1
    (r.1, r.2.1)
  else
    (q1, [])

/-- Repeated firing of the expectCommand event until the command queue is
empty: each firing calls runCommandQueue once.  Returns all commands
submitted, in order of submission. -/
def drainCommandQueue : List ParserCommand → List ParserCommand
  | [] => []
  | c :: rest => (runCommandQueue (c :: rest)).2.1 ++ drainCommandQueue rest

/-- Repeated firing of the expectKeypress event until the key queue is
empty: each firing calls runKeyQueue once.  Returns all key codes sent, in
order of sending. -/
def drainKeyQueue : List String → List Nat
  | [] => []
  | k :: rest => (runKeyQueue (k :: rest)).2.1 ++ drainKeyQueue rest

/-- Embedding of the JavaScript Array.prototype.indexOf used by
removeInputFilter: the index of the first occurrence, or -1 when the element
is absent.  JavaScript compares filters by reference identity; the embedding
works over any type with decidable equality standing for that identity. -/
def jsIndexOf {α : Type} [DecidableEq α] (x : α) : List α → Int
  | [] => -1
  | y :: rest =>
    if y = x then 0
    else
      let r := jsIndexOf x rest
      if r = -1 then -1 else r + 1

/-- Embedding of removeInputFilter (lines 239 to 248 of prompt.ts): look up
the first occurrence with indexOf; when absent return false and leave the
list unchanged, otherwise splice the occurrence out and return true.  The
result is the return value paired with the list after the call. -/
def removeInputFilter {α : Type} [DecidableEq α] (filter : α) (l : List α) :
    Bool × List α :=
  let index := jsIndexOf filter l
  if index = -1 then (false, l)
  else (true, l.eraseIdx index.toNat)

/-- Embedding of addInputFilter (lines 79 to 82 of prompt.ts): push the
filter onto the end of the list (unconditionally, even when already present)
and return a closure that removes this filter.  The result is the list
after the call paired with the returned removal function, itself a function
of the list at the time it is invoked. -/
def addInputFilter {α : Type} [DecidableEq α] (filter : α) (l : List α) :
    List α × (List α → Bool × List α) :=
  (l ++ [filter], fun cur => removeInputFilter filter cur)

/-- Resolved values on which the filter loop proceeds to the next iteration
(with a possibly updated input): undefined, null, true and strings.  On
false the loop returns early and on every other value the error call
throws. -/
def continues : JSVal → Bool
  | .undef => true
  | .null => true
  | .bool b => b
  | .str _ => true
  | .num _ => false
  | .obj _ => false
  | .promise _ => false

/-- Resolved values the documentation allows a filter to produce apart from
the cancelling false: true and strings. -/
def validContinue : JSVal → Bool
  | .undef => false
  | .null => false
  | .bool b => b
  | .str _ => true
  | .num _ => false
  | .obj _ => false
  | .promise _ => false

/-- Resolved values that drive the loop into one of the two error calls:
numbers (standing for primitives other than booleans and strings),
non-promise objects, and promise values. -/
def invalidResolved : JSVal → Bool
  | .undef => false
  | .null => false
  | .bool _ => false
  | .str _ => false
  | .num _ => true
  | .obj _ => true
  | .promise _ => true

/-- The message the error call receives for an invalid resolved value: the
promise message for objects carrying a then property, the typeof message
otherwise. -/
def errMsgFor : JSVal → String
  | .obj true => thenMsg
  | .promise _ => thenMsg
  | v => typeErrMsg (jsTypeof v)

/-- Whether an event is a message handed to the error call. -/
def isErrorLog : Ev → Bool
  | .errorLog _ => true
  | _ => false

/-- The input string a continuing iteration hands to the next iteration: a
resolved string replaces the current input, everything else keeps it. -/
def chainStepVal (v : JSVal) (s : String) : String :=
  match v with
  | .str t => t
  | _ => s

/-- The input string the filter at the head of the list passes on, starting
from input s. -/
def chainStep (o : String) (m : InputFilterMeta) (f : InputFilter) (s : String) :
    String :=
  chainStepVal (awaitResolve (f s (callMeta m o s))) s

/-- The final input string after running all filters in order, assuming
every iteration continues. -/
def chainFinal (o : String) (m : InputFilterMeta) : List InputFilter → String → String
  | [], s => s
  | f :: rest, s => chainFinal o m rest (chainStep o m f s)

/-- The event trace of the filter loop, assuming every iteration continues:
one invocation and one unblock per filter, in registration order, plus the
final unblock. -/
def chainTrace (o : String) (m : InputFilterMeta) :
    List InputFilter → Nat → String → List Ev
  | [], _, _ => [Ev.unblock]
  | f :: rest, idx, s =>
    Ev.callFilter idx s :: Ev.unblock :: chainTrace o m rest (idx + 1) (chainStep o m f s)

/-- Modelled from the spec: the block and unblock calls live in the layout
module, which is not among the sources; the UI blocking test of the repository
shows that block disables typing into the input field and unblock re-enables
it.  We read a trace accordingly: at any point the input is enabled exactly
when the number of block events seen so far, minus the unblock events seen
so far, is at most zero.  This function decides whether some filter
invocation in the trace happens at a point where the input is enabled,
starting from a given block depth. -/
def existsCallWhileUnblocked : List Ev → Int → Bool
  | [], _ => false
  | Ev.block :: rest, d => existsCallWhileUnblocked rest (d + 1)
  | Ev.unblock :: rest, d => existsCallWhileUnblocked rest (d - 1)
  | Ev.callFilter _ _ :: rest, d => decide (d ≤ 0) || existsCallWhileUnblocked rest d
  | Ev.errorLog _ :: rest, d => existsCallWhileUnblocked rest d

/-- On a resolved value on which the loop continues, the switch yields a
continue action. -/
lemma continues_stepAct {v : JSVal} (h : continues v = true) (s : String) :
    ∃ s2, stepAct s v = StepAct.cont s2 := by
  cases v with
  | undef => exact ⟨s, rfl⟩
  | null => exact ⟨s, rfl⟩
  | bool b =>
    cases b with
    | false => simp [continues] at h
    | true => exact ⟨s, rfl⟩
  | str t => exact ⟨t, rfl⟩
  | num n => simp [continues] at h
  | obj b => simp [continues] at h
  | promise w => simp [continues] at h

/-- On a resolved value of one of the documented non-cancelling shapes the
switch continues with exactly the chain-step input. -/
lemma valid_stepAct {v : JSVal} (h : validContinue v = true) (s : String) :
    stepAct s v = StepAct.cont (chainStepVal v s) := by
  cases v with
  | undef => simp [validContinue] at h
  | null => simp [validContinue] at h
  | bool b =>
    cases b with
    | false => simp [validContinue] at h
    | true => rfl
  | str t => rfl
  | num n => simp [validContinue] at h
  | obj b => simp [validContinue] at h
  | promise w => simp [validContinue] at h

/-- On an invalid resolved value the switch reaches an error call with the
corresponding message. -/
lemma invalid_stepAct {v : JSVal} (h : invalidResolved v = true) (s : String) :
    stepAct s v = StepAct.abort (errMsgFor v) := by
  cases v with
  | undef => simp [invalidResolved] at h
  | null => simp [invalidResolved] at h
  | bool b => simp [invalidResolved] at h
  | str t => simp [invalidResolved] at h
  | num n => rfl
  | obj b => cases b <;> rfl
  | promise w => rfl

/-- A valid continuing value also continues. -/
lemma continues_of_validContinue {v : JSVal} (h : validContinue v = true) :
    continues v = true := by
  cases v with
  | undef => rfl
  | null => rfl
  | bool b => exact h
  | str t => rfl
  | num n => simp [validContinue] at h
  | obj b => simp [validContinue] at h
  | promise w => simp [validContinue] at h

/-- Repeatedly firing expectCommand submits exactly the queued commands, in
queue order. -/
lemma drainCommandQueue_eq (q : List ParserCommand) : drainCommandQueue q = q := by
  induction q with
  | nil => rfl
  | cons c rest ih => simp [drainCommandQueue, runCommandQueue, ih]

/-- Repeatedly firing expectKeypress sends exactly the codes of the queued keys,
in queue order. -/
lemma drainKeyQueue_eq (kq : List String) : drainKeyQueue kq = kq.map jsCharCodeAt0 := by
  induction kq with
  | nil => rfl
  | cons k rest ih => simp [drainKeyQueue, runKeyQueue, ih]

/-- An absent element has index -1. -/
lemma jsIndexOf_of_not_mem {α : Type} [DecidableEq α] {x : α} {l : List α}
    (h : x ∉ l) : jsIndexOf x l = -1 := by
  induction l with
  | nil => rfl
  | cons y rest ih =>
    have hyx : y ≠ x := fun he => h (he ▸ List.mem_cons_self y rest)
    have hxr : x ∉ rest := fun hm => h (List.mem_cons_of_mem y hm)
    simp [jsIndexOf, hyx, ih hxr]

/-- A present element has a nonnegative index. -/
lemma jsIndexOf_nonneg {α : Type} [DecidableEq α] {x : α} {l : List α}
    (h : x ∈ l) : 0 ≤ jsIndexOf x l := by
  induction l with
  | nil => simp at h
  | cons y rest ih =>
    by_cases hyx : y = x
    · simp [jsIndexOf, hyx]
    · have hxr : x ∈ rest := by
        rcases List.mem_cons.mp h with h1 | h1
        · exact absurd h1.symm hyx
        · exact h1
      have hr := ih hxr
      simp only [jsIndexOf, hyx, if_false]
      by_cases he : jsIndexOf x rest = -1
      · omega
      · simp only [he, if_false]
        omega

/-- Removing a present element removes exactly its first occurrence. -/
lemma removeInputFilter_of_mem {α : Type} [DecidableEq α] {x : α} {l : List α}
    (h : x ∈ l) : removeInputFilter x l = (true, l.erase x) := by
  induction l with
  | nil => simp at h
  | cons y rest ih =>
    by_cases hyx : y = x
    · subst hyx
      simp [removeInputFilter, jsIndexOf, List.erase_cons_head]
    · have hxr : x ∈ rest := by
        rcases List.mem_cons.mp h with h1 | h1
        · exact absurd h1.symm hyx
        · exact h1
      have hr0 : 0 ≤ jsIndexOf x rest := jsIndexOf_nonneg hxr
      have hrne : jsIndexOf x rest ≠ -1 := by omega
      have hidx : jsIndexOf x (y :: rest) = jsIndexOf x rest + 1 := by
        simp [jsIndexOf, hyx, hrne]
      have htail := ih hxr
      simp only [removeInputFilter, hrne, if_false] at htail
      have herase : (y :: rest).erase x = y :: rest.erase x :=
        List.erase_cons_tail (by simp [hyx])
      have htn : (jsIndexOf x rest + 1).toNat = (jsIndexOf x rest).toNat + 1 := by
        omega
      have htail2 : rest.eraseIdx (jsIndexOf x rest).toNat = rest.erase x := by
        simpa using congrArg Prod.snd htail
      simp only [removeInputFilter, hidx, htn, herase]
      have hne1 : jsIndexOf x rest + 1 ≠ -1 := by omega
      simp only [hne1, if_false, List.eraseIdx_cons_succ, htail2]

/-- Removing an absent element returns false and leaves the list
unchanged. -/
lemma removeInputFilter_of_not_mem {α : Type} [DecidableEq α] {x : α} {l : List α}
    (h : x ∉ l) : removeInputFilter x l = (false, l) := by
  simp [removeInputFilter, jsIndexOf_of_not_mem h]

/-- Running the loop over a prefix of filters that all continue, followed by
a filter that resolves to false, returns false and never invokes a filter
past the cancelling one. -/
lemma filterLoop_cancel_gen (o : String) (m : InputFilterMeta) (f : InputFilter)
    (post : List InputFilter)
    (hf : ∀ s mm, awaitResolve (f s mm) = JSVal.bool false)
    (pre : List InputFilter) :
    (∀ g ∈ pre, ∀ s mm, continues (awaitResolve (g s mm)) = true) →
    ∀ (idx : Nat) (s0 : String),
      (filterLoop o m (pre ++ f :: post) idx s0).2 = Outcome.retFalse ∧
      ∀ j t, Ev.callFilter j t ∈ (filterLoop o m (pre ++ f :: post) idx s0).1 →
        j ≤ idx + pre.length := by
  induction pre with
  | nil =>
    intro _ idx s0
    simp only [List.nil_append, filterLoop, hf, stepAct]
    refine ⟨trivial, ?_⟩
    intro j t hmem
    simp at hmem
    obtain ⟨h1, -⟩ := hmem
    simp only [List.length_nil]
    omega
  | cons g pre ih =>
    intro hpre idx s0
    have hg := hpre g (List.mem_cons_self g pre)
    have hpre2 : ∀ g2 ∈ pre, ∀ s mm, continues (awaitResolve (g2 s mm)) = true :=
      fun g2 hg2 => hpre g2 (List.mem_cons_of_mem g hg2)
    obtain ⟨s2, hs2⟩ := continues_stepAct (hg s0 (callMeta m o s0)) s0
    simp only [List.cons_append, filterLoop, hs2]
    have hrec := ih hpre2 (idx + 1) s2
    refine ⟨hrec.1, ?_⟩
    intro j t hmem
    simp at hmem
    rcases hmem with ⟨h1, -⟩ | h1
    · simp only [List.length_cons]
      omega
    · have := hrec.2 j t h1
      simp only [List.length_cons]
      omega

/-- Running the loop over a prefix of filters that all continue, followed by
a filter that resolves to an invalid value, aborts with a thrown error whose
message is also handed to the error log, and never invokes a filter past the
offending one. -/
lemma filterLoop_abort_gen (o : String) (m : InputFilterMeta) (f : InputFilter)
    (post : List InputFilter) (v : JSVal)
    (hv : invalidResolved v = true)
    (hf : ∀ s mm, awaitResolve (f s mm) = v)
    (pre : List InputFilter) :
    (∀ g ∈ pre, ∀ s mm, continues (awaitResolve (g s mm)) = true) →
    ∀ (idx : Nat) (s0 : String),
      (filterLoop o m (pre ++ f :: post) idx s0).2 = Outcome.threw (errMsgFor v) ∧
      Ev.errorLog (errMsgFor v) ∈ (filterLoop o m (pre ++ f :: post) idx s0).1 ∧
      ∀ j t, Ev.callFilter j t ∈ (filterLoop o m (pre ++ f :: post) idx s0).1 →
        j ≤ idx + pre.length := by
  induction pre with
  | nil =>
    intro _ idx s0
    simp only [List.nil_append, filterLoop, hf, invalid_stepAct hv, errorCall]
    refine ⟨trivial, by simp, ?_⟩
    intro j t hmem
    simp at hmem
    obtain ⟨h1, -⟩ := hmem
    simp only [List.length_nil]
    omega
  | cons g pre ih =>
    intro hpre idx s0
    have hg := hpre g (List.mem_cons_self g pre)
    have hpre2 : ∀ g2 ∈ pre, ∀ s mm, continues (awaitResolve (g2 s mm)) = true :=
      fun g2 hg2 => hpre g2 (List.mem_cons_of_mem g hg2)
    obtain ⟨s2, hs2⟩ := continues_stepAct (hg s0 (callMeta m o s0)) s0
    simp only [List.cons_append, filterLoop, hs2]
    have hrec := ih hpre2 (idx + 1) s2
    refine ⟨hrec.1, by simp [hrec.2.1], ?_⟩
    intro j t hmem
    simp at hmem
    rcases hmem with ⟨h1, -⟩ | h1
    · simp only [List.length_cons]
      omega
    · have := hrec.2.2 j t h1
      simp only [List.length_cons]
      omega

/-- When every filter resolves to one of the documented continuing shapes
(true or a string), the loop is the sequential chain: filters are invoked in
index order on the chained inputs and the routine returns the chained final
input. -/
lemma filterLoop_valid_gen (o : String) (m : InputFilterMeta)
    (fs : List InputFilter) :
    (∀ f ∈ fs, ∀ s mm, validContinue (awaitResolve (f s mm)) = true) →
    ∀ (idx : Nat) (s0 : String),
      filterLoop o m fs idx s0 =
        (chainTrace o m fs idx s0, Outcome.retString (chainFinal o m fs s0)) := by
  induction fs with
  | nil => intro _ idx s0; rfl
  | cons f rest ih =>
    intro h idx s0
    have hf := h f (List.mem_cons_self f rest)
    have hrest : ∀ g ∈ rest, ∀ s mm, validContinue (awaitResolve (g s mm)) = true :=
      fun g hg => h g (List.mem_cons_of_mem f hg)
    have hstep := valid_stepAct (hf s0 (callMeta m o s0)) s0
    simp only [filterLoop, hstep, ih hrest (idx + 1) (chainStepVal
      (awaitResolve (f s0 (callMeta m o s0))) s0)]
    simp only [chainTrace, chainFinal, chainStep]

/-- Replacing a filter that always resolves to undefined or null by one that
always resolves to true changes nothing about a loop run. -/
lemma filterLoop_nulllike_gen (o : String) (m : InputFilterMeta) (f g : InputFilter)
    (hf : ∀ s mm, awaitResolve (f s mm) = JSVal.undef ∨ awaitResolve (f s mm) = JSVal.null)
    (hg : ∀ s mm, awaitResolve (g s mm) = JSVal.bool true)
    (fs1 fs2 : List InputFilter) :
    ∀ (idx : Nat) (s0 : String),
      filterLoop o m (fs1 ++ f :: fs2) idx s0 = filterLoop o m (fs1 ++ g :: fs2) idx s0 := by
  induction fs1 with
  | nil =>
    intro idx s0
    have hstepf : stepAct s0 (awaitResolve (f s0 (callMeta m o s0))) = StepAct.cont s0 := by
      rcases hf s0 (callMeta m o s0) with h | h <;> rw [h] <;> rfl
    have hstepg : stepAct s0 (awaitResolve (g s0 (callMeta m o s0))) = StepAct.cont s0 := by
      rw [hg s0 (callMeta m o s0)]
      rfl
    simp only [List.nil_append, filterLoop, hstepf, hstepg]
  | cons h1 fs1 ih =>
    intro idx s0
    simp only [List.cons_append, filterLoop]
    cases stepAct s0 (awaitResolve (h1 s0 (callMeta m o s0))) with
    | cont s2 =>
      exact congrArg (fun r => (Ev.callFilter idx s0 :: Ev.unblock :: r.1, r.2))
        (ih (idx + 1) s2)
    | cancel => rfl
    | abort msg => rfl

/-- Claim C1.  The claim states that input stays disabled while any
registered filter is still pending.  The code violates this: unblock is
called in the finally block after each single filter resolves, so with two
filters that both resolve to true the second filter is invoked at block
depth zero, that is, with input enabled.  This theorem evaluates the code at
the failing input: the full trace shows block once, then an unblock before
the second invocation, and the routine still finishes normally. -/
theorem claim1_unblocked_while_filter_pending :
    existsCallWhileUnblocked
      (applyInputFilters [fun _ _ => JSVal.bool true, fun _ _ => JSVal.bool true]
        "x" meta0).trace 0 = true ∧
    (applyInputFilters [fun _ _ => JSVal.bool true, fun _ _ => JSVal.bool true]
        "x" meta0).trace =
      [Ev.block, Ev.callFilter 0 "x", Ev.unblock, Ev.callFilter 1 "x", Ev.unblock,
        Ev.unblock] ∧
    (applyInputFilters [fun _ _ => JSVal.bool true, fun _ _ => JSVal.bool true]
        "x" meta0).outcome = Outcome.retString "x" := by
  refine ⟨rfl, rfl, rfl⟩

/-- Claim C2 counterexample.  A filter resolving to the number 42 does not
let processing continue with the remaining filters: the routine throws (the
error call both logs and throws) and the second filter is never invoked, so
the claim that no exception is thrown and processing continues is false at
this input. -/
theorem claim2_counterexample :
    (applyInputFilters [fun _ _ => JSVal.num 42, fun _ _ => JSVal.bool true]
        "x" meta0).outcome = Outcome.threw (typeErrMsg "number") ∧
    Ev.callFilter 1 "x" ∉
      (applyInputFilters [fun _ _ => JSVal.num 42, fun _ _ => JSVal.bool true]
        "x" meta0).trace := by
  refine ⟨rfl, by decide⟩

/-- Claim C2 as amended.  For every filter whose resolved return value is
neither a boolean nor a string (nor the ignored undefined and null), the
problem is reported through the error call of the debug module: the message
is logged, but the call then throws, so applyInputFilters aborts with that
exception at the offending filter and the remaining filters are not
invoked. -/
theorem claim2_invalid_value_reported (pre post : List InputFilter) (f : InputFilter)
    (v : JSVal) (o : String) (m : InputFilterMeta)
    (hpre : ∀ g ∈ pre, ∀ s mm, continues (awaitResolve (g s mm)) = true)
    (hv : invalidResolved v = true)
    (hf : ∀ s mm, awaitResolve (f s mm) = v) :
    (applyInputFilters (pre ++ f :: post) o m).outcome = Outcome.threw (errMsgFor v) ∧
    Ev.errorLog (errMsgFor v) ∈ (applyInputFilters (pre ++ f :: post) o m).trace ∧
    ∀ j t, Ev.callFilter j t ∈ (applyInputFilters (pre ++ f :: post) o m).trace →
      j ≤ pre.length := by
  have h := filterLoop_abort_gen o m f post v hv hf pre hpre 0 o
  refine ⟨h.1, List.mem_cons_of_mem Ev.block h.2.1, ?_⟩
  intro j t hmem
  rcases List.mem_cons.mp hmem with h1 | h1
  · exact absurd h1 (by simp)
  · have := h.2.2 j t h1
    omega

/-- Claim C2 witness: one filter resolving to the number 42 followed by one
more filter.  The prefix is empty, the routine throws the typeof message,
logs it, and the filter at index 1 is never invoked. -/
theorem claim2_witness :
    (applyInputFilters [fun _ _ => JSVal.num 42, fun _ _ => JSVal.bool true]
        "y" meta0).outcome = Outcome.threw (errMsgFor (JSVal.num 42)) ∧
    Ev.errorLog (errMsgFor (JSVal.num 42)) ∈
      (applyInputFilters [fun _ _ => JSVal.num 42, fun _ _ => JSVal.bool true]
        "y" meta0).trace ∧
    Ev.callFilter 1 "y" ∉
      (applyInputFilters [fun _ _ => JSVal.num 42, fun _ _ => JSVal.bool true]
        "y" meta0).trace := by
  have h := claim2_invalid_value_reported [] [fun _ _ => JSVal.bool true]
    (fun _ _ => JSVal.num 42) (JSVal.num 42) "y" meta0
    (by intro g hg; exact absurd hg (by simp)) rfl (fun _ _ => rfl)
  exact ⟨h.1, h.2.1, fun hmem => absurd (h.2.2 1 "y" hmem) (by decide)⟩

/-- Claim C3.  If the filters before some filter f all resolve to continuing
values and f resolves to false, then applyInputFilters returns false and no
filter registered after f is ever invoked. -/
theorem claim3_false_cancels (pre post : List InputFilter) (f : InputFilter)
    (o : String) (m : InputFilterMeta)
    (hpre : ∀ g ∈ pre, ∀ s mm, continues (awaitResolve (g s mm)) = true)
    (hf : ∀ s mm, awaitResolve (f s mm) = JSVal.bool false) :
    (applyInputFilters (pre ++ f :: post) o m).outcome = Outcome.retFalse ∧
    ∀ j t, Ev.callFilter j t ∈ (applyInputFilters (pre ++ f :: post) o m).trace →
      j ≤ pre.length := by
  have h := filterLoop_cancel_gen o m f post hf pre hpre 0 o
  refine ⟨h.1, ?_⟩
  intro j t hmem
  rcases List.mem_cons.mp hmem with h1 | h1
  · exact absurd h1 (by simp)
  · have := h.2 j t h1
    omega

/-- Claim C3 witness: a string-rewriting filter, then a cancelling filter,
then a further filter.  The routine returns false and the filter at index 2
is never invoked. -/
theorem claim3_witness :
    (applyInputFilters [fun s _ => JSVal.str (s ++ "a"), fun _ _ => JSVal.bool false,
        fun _ _ => JSVal.bool true] "x" meta0).outcome = Outcome.retFalse ∧
    Ev.callFilter 2 "xa" ∉
      (applyInputFilters [fun s _ => JSVal.str (s ++ "a"), fun _ _ => JSVal.bool false,
        fun _ _ => JSVal.bool true] "x" meta0).trace := by
  have h := claim3_false_cancels [fun s _ => JSVal.str (s ++ "a")]
    [fun _ _ => JSVal.bool true] (fun _ _ => JSVal.bool false) "x" meta0
    (by
      intro g hg s mm
      rcases List.mem_singleton.mp hg with rfl
      rfl)
    (fun _ _ => rfl)
  exact ⟨h.1, fun hmem => absurd (h.2 2 "xa" hmem) (by decide)⟩

/-- Claim C4.  When every registered filter resolves to one of the
documented continuing values (true or a string), applyInputFilters invokes
the filters sequentially in registration order, handing each the current
input, where a resolved string replaces the input passed to subsequent
filters and true leaves it unchanged, and the routine returns the final
transformed string. -/
theorem claim4_sequential_chain (fs : List InputFilter) (o : String)
    (m : InputFilterMeta)
    (h : ∀ f ∈ fs, ∀ s mm, validContinue (awaitResolve (f s mm)) = true) :
    applyInputFilters fs o m =
      ⟨Ev.block :: chainTrace o m fs 0 o,
        Outcome.retString (chainFinal o m fs o)⟩ := by
  unfold applyInputFilters
  rw [filterLoop_valid_gen o m fs h 0 o]

/-- Claim C4 witness: a string-appending filter, a filter resolving to true,
and a promise of a string-appending filter, on input x: the filters are
called in order at inputs x, xa and xa, and the routine returns xab. -/
theorem claim4_witness :
    applyInputFilters [fun s _ => JSVal.str (s ++ "a"), fun _ _ => JSVal.bool true,
        fun s _ => JSVal.promise (JSVal.str (s ++ "b"))] "x" meta0 =
      ⟨[Ev.block, Ev.callFilter 0 "x", Ev.unblock, Ev.callFilter 1 "xa", Ev.unblock,
          Ev.callFilter 2 "xa", Ev.unblock, Ev.unblock],
        Outcome.retString "xab"⟩ := by
  have h := claim4_sequential_chain [fun s _ => JSVal.str (s ++ "a"),
    fun _ _ => JSVal.bool true, fun s _ => JSVal.promise (JSVal.str (s ++ "b"))]
    "x" meta0
    (by
      intro f hf s mm
      simp only [List.mem_cons, List.not_mem_nil, or_false] at hf
      rcases hf with rfl | rfl | rfl
      · rfl
      · rfl
      · rfl)
  exact h.trans rfl

/-- Claim C5 counterexample.  One firing of expectCommand on a queue of two
commands does not drain it: only the oldest command is submitted and the
queue still holds the second one; likewise one firing of expectKeypress on a
two-key queue leaves the queue nonempty. -/
theorem claim5_counterexample :
    (runCommandQueue [⟨"look", false⟩, ⟨"take lamp", false⟩]).1 ≠ [] ∧
    (runCommandQueue [⟨"look", false⟩, ⟨"take lamp", false⟩]).2.1 ≠
      [⟨"look", false⟩, ⟨"take lamp", false⟩] ∧
    (runKeyQueue ["a", "b"]).1 ≠ [] := by
  refine ⟨by decide, by decide, by decide⟩

/-- Claim C5 as amended.  Each firing of expectCommand submits exactly the
oldest queued command and removes it from the queue (doing nothing when the
queue is empty), and each firing of expectKeypress sends exactly the oldest
queued key; the queues are drained over repeated firings, submitting the
elements in queue order. -/
theorem claim5_single_dequeue_per_event (cmd : ParserCommand)
    (rest : List ParserCommand) (key : String) (krest : List String) :
    runCommandQueue [] = ([], [], none) ∧
    runCommandQueue (cmd :: rest) = (rest, [cmd], some false) ∧
    runKeyQueue [] = ([], [], true) ∧
    runKeyQueue (key :: krest) = (krest, [jsCharCodeAt0 key], false) ∧
    drainCommandQueue (cmd :: rest) = cmd :: rest ∧
    drainKeyQueue (key :: krest) = (key :: krest).map jsCharCodeAt0 :=
  ⟨rfl, rfl, rfl, rfl, drainCommandQueue_eq (cmd :: rest), drainKeyQueue_eq (key :: krest)⟩

/-- Claim C6.  Both queues are FIFO: queueCommand and queueKeypress append
at the tail (with no immediate submission when the engine is not ready), the
event handlers dequeue exactly the oldest element and forward it, and
repeated firings submit the elements in exactly the order they were
queued. -/
theorem claim6_fifo_queues (q : List ParserCommand) (c : String) (s : Bool)
    (kq : List String) (k : String) (cmd : ParserCommand)
    (rest : List ParserCommand) (key : String) (krest : List String) :
    queueCommand q c s false = (q ++ [⟨c, s⟩], []) ∧
    queueKeypress kq k false = (kq ++ [k], []) ∧
    runCommandQueue (cmd :: rest) = (rest, [cmd], some false) ∧
    runKeyQueue (key :: krest) = (krest, [jsCharCodeAt0 key], false) ∧
    drainCommandQueue q = q ∧
    drainKeyQueue kq = kq.map jsCharCodeAt0 :=
  ⟨rfl, rfl, rfl, rfl, drainCommandQueue_eq q, drainKeyQueue_eq kq⟩

/-- Claim C7.  The filter list admits duplicates: addInputFilter appends
unconditionally, and removeInputFilter removes exactly the first occurrence
of a present filter returning true, while an absent filter leaves the list
unchanged and returns false. -/
theorem claim7_add_remove_first {α : Type} [DecidableEq α] (f : α) (l : List α) :
    (addInputFilter f l).1 = l ++ [f] ∧
    (f ∈ l → removeInputFilter f l = (true, l.erase f)) ∧
    (f ∉ l → removeInputFilter f l = (false, l)) :=
  ⟨rfl, fun h => removeInputFilter_of_mem h, fun h => removeInputFilter_of_not_mem h⟩

/-- Claim C7 witness: adding 1 to a list already containing 1 twice appends
it anyway; removing 1 removes only the first occurrence; removing the
absent 5 returns false and changes nothing. -/
theorem claim7_witness :
    (addInputFilter 1 [0, 1, 1, 2]).1 = [0, 1, 1, 2, 1] ∧
    removeInputFilter 1 [0, 1, 1, 2] = (true, [0, 1, 2]) ∧
    removeInputFilter 5 [0, 1, 1, 2] = (false, [0, 1, 1, 2]) := by
  have h1 := claim7_add_remove_first 1 [0, 1, 1, 2]
  have h5 := claim7_add_remove_first 5 [0, 1, 1, 2]
  exact ⟨h1.1.trans rfl, (h1.2.1 (by decide)).trans (by decide), h5.2.2 (by decide)⟩

/-- Claim C8 counterexample.  A filter returning a promise that resolves to
another promise of the string y is not reported at all: await assimilates
thenables recursively, so the routine logs nothing and returns y. -/
theorem claim8_counterexample :
    (applyInputFilters [fun _ _ => JSVal.promise (JSVal.promise (JSVal.str "y"))]
        "x" meta0).outcome = Outcome.retString "y" ∧
    ((applyInputFilters [fun _ _ => JSVal.promise (JSVal.promise (JSVal.str "y"))]
        "x" meta0).trace.any isErrorLog) = false := by
  refine ⟨rfl, rfl⟩

/-- Claim C8 as amended.  Awaiting unwraps promise layers transparently, so
wrapping the return value of a filter in an extra promise never changes the run;
the message about a filter promise resolving into another promise is instead
produced exactly when the resolved value of a filter is a non-promise object
carrying a then property, in which case the error call receives that message
and throws. -/
theorem claim8_promise_layers_invisible (g : InputFilter) (fs : List InputFilter)
    (o : String) (m : InputFilterMeta) :
    applyInputFilters ((fun s mm => JSVal.promise (g s mm)) :: fs) o m =
      applyInputFilters (g :: fs) o m ∧
    applyInputFilters [fun _ _ => JSVal.obj true] o m =
      ⟨[Ev.block, Ev.callFilter 0 o, Ev.unblock, Ev.errorLog thenMsg],
        Outcome.threw thenMsg⟩ := by
  refine ⟨rfl, rfl⟩

/-- Claim C9.  Adding a not-yet-registered filter and then calling the
removal function returned by addInputFilter restores the filter list exactly
and reports a successful removal. -/
theorem claim9_add_remove_roundtrip {α : Type} [DecidableEq α] (f : α) (l : List α)
    (h : f ∉ l) :
    (addInputFilter f l).2 (addInputFilter f l).1 = (true, l) := by
  have hmem : f ∈ l ++ [f] := List.mem_append_right l (List.mem_singleton_self f)
  have hrem := removeInputFilter_of_mem hmem
  have herase : (l ++ [f]).erase f = l := by
    rw [List.erase_append_right [f] h]
    simp
  calc (addInputFilter f l).2 (addInputFilter f l).1
      = removeInputFilter f (l ++ [f]) := rfl
    _ = (true, (l ++ [f]).erase f) := hrem
    _ = (true, l) := by rw [herase]

/-- Claim C9 witness: adding 3 to a list without it and running the returned
removal function gives back the original list. -/
theorem claim9_witness :
    (addInputFilter 3 [1, 2]).2 (addInputFilter 3 [1, 2]).1 = (true, [1, 2]) :=
  claim9_add_remove_roundtrip 3 [1, 2] (by decide)

/-- Claim C10.  A filter whose return value resolves to undefined or null is
treated exactly like one resolving to true: the whole run of
applyInputFilters, trace and outcome alike, is unchanged when one is
replaced by the other, so the input is untouched, nothing is logged and the
remaining filters run as before. -/
theorem claim10_nulllike_is_true (fs1 fs2 : List InputFilter) (f g : InputFilter)
    (o : String) (m : InputFilterMeta)
    (hf : ∀ s mm, awaitResolve (f s mm) = JSVal.undef ∨ awaitResolve (f s mm) = JSVal.null)
    (hg : ∀ s mm, awaitResolve (g s mm) = JSVal.bool true) :
    applyInputFilters (fs1 ++ f :: fs2) o m = applyInputFilters (fs1 ++ g :: fs2) o m := by
  unfold applyInputFilters
  rw [filterLoop_nulllike_gen o m f g hf hg fs1 fs2 0 o]

/-- Claim C10 witness: a run with a middle filter resolving (through a
promise) to null equals the run with that filter replaced by one returning
true, surrounded by a rewriting filter and a cancelling filter. -/
theorem claim10_witness :
    applyInputFilters [fun s _ => JSVal.str (s ++ "!"),
        fun _ _ => JSVal.promise JSVal.null, fun _ _ => JSVal.bool false] "x" meta0 =
      applyInputFilters [fun s _ => JSVal.str (s ++ "!"),
        fun _ _ => JSVal.bool true, fun _ _ => JSVal.bool false] "x" meta0 :=
  claim10_nulllike_is_true [fun s _ => JSVal.str (s ++ "!")]
    [fun _ _ => JSVal.bool false] (fun _ _ => JSVal.promise JSVal.null)
    (fun _ _ => JSVal.bool true) "x" meta0
    (fun _ _ => Or.inr rfl) (fun _ _ => rfl)

end Vorple.Prompt
